import Mathlib

/-!
Shallow embedding of the offline template compiler (`offline_compiler.ts`).

The source file orchestrates external collaborators (style compiler, template
parser, view compiler, output emitter, XHR fetcher) per component, resolves
placeholder dependency objects to concrete module URLs and symbol names
following a deterministic naming scheme, and assembles final source modules.

Modelling conventions:
- TypeScript strings are Lean `String`s; `lastIndexOf` of the dot character
  plus `substring` is modelled by the recursive `splitLastDot` on the
  character list.
- Thrown `BaseException`s become `Except String` results carrying the same
  message text.
- The collaborators are abstract: the `OfflineCompiler` record holds one
  function per collaborator method the source calls, with abstract statement
  and parsed-template types.
- In-place mutation of placeholder objects (assignments to
  `dep.placeholder.moduleUrl` and friends) is modelled functionally: a
  resolution function returns the compile result with the updated dependency
  list; its `statements` field is the statement list the source function
  returns (in the source the statements alias the mutated placeholders).
- The single asynchronous step (`this._xhr.get(url).then(...)`) is modelled
  with `Option`: `none` is a rejected fetch, `some cssText` a resolved one.
-/

namespace Ngc

/-- Identifier metadata: a symbol name plus the URL of its defining module
(the `name` and `moduleUrl` fields of `CompileIdentifierMetadata` used by the
source). Placeholder dependency objects carry exactly such a record. -/
structure CompileIdentifierMetadata where
  name : String
  moduleUrl : String
deriving DecidableEq

/-- Template metadata; the source reads `compMeta.template.template`. -/
structure CompileTemplateMetadata where
  template : String
deriving DecidableEq

/-- Directive metadata: the fields of `CompileDirectiveMetadata` the source
reads (`type`, `selector`, `isComponent`, `template`). -/
structure CompileDirectiveMetadata where
  type : CompileIdentifierMetadata
  selector : String
  isComponent : Bool
  template : CompileTemplateMetadata
deriving DecidableEq

/-- Pipe metadata; passed through to collaborators, never inspected here. -/
structure CompilePipeMetadata where
  name : String
deriving DecidableEq

/-- Final output unit: a module URL plus serialized source text. -/
structure SourceModule where
  moduleUrl : String
  source : String
deriving DecidableEq

/-- Result of the stylesheet path: a source module plus the raw imported
stylesheet URLs for the caller to compile recursively. -/
structure StyleSheetSourceWithImports where
  source : SourceModule
  importedUrls : List String
deriving DecidableEq

/-- One input tuple of `compileTemplates`. -/
structure NormalizedComponentWithViewDirectives where
  component : CompileDirectiveMetadata
  directives : List CompileDirectiveMetadata
  pipes : List CompilePipeMetadata
deriving DecidableEq

/-- A nested stylesheet dependency produced by the style compiler: the
imported stylesheet URL, its shim flag, and the placeholder the orchestrator
resolves. -/
structure StylesCompileDependency where
  moduleUrl : String
  isShimmed : Bool
  valuePlaceholder : CompileIdentifierMetadata
deriving DecidableEq

/-- Style-compiler result shape: statement list, nested stylesheet
dependencies, and the name of the generated styles variable. -/
structure StylesCompileResult (Stmt : Type) where
  statements : List Stmt
  dependencies : List StylesCompileDependency
  stylesVar : String

/-- A cross-module dependency in a view-compiler result. The source
discriminates with `instanceof ViewFactoryDependency` and
`instanceof ComponentFactoryDependency`; any other object is untouched,
which the embedding models with the `other` constructor. A `viewFactory`
dependency carries directive metadata (the source reads `dep.comp.type`), a
`componentFactory` dependency carries identifier metadata directly
(`dep.comp`). -/
inductive ViewStmtDependency where
  | viewFactory (comp : CompileDirectiveMetadata) (placeholder : CompileIdentifierMetadata)
  | componentFactory (comp : CompileIdentifierMetadata) (placeholder : CompileIdentifierMetadata)
  | other (tag : String) (placeholder : CompileIdentifierMetadata)
deriving DecidableEq

/-- View-compiler result shape: statement list, cross-module dependencies,
and the name of the generated view-factory variable. -/
structure ViewCompileResult (Stmt : Type) where
  statements : List Stmt
  dependencies : List ViewStmtDependency
  viewFactoryVar : String

/-- The offline compiler with its collaborator functions. `Stmt` is the
abstract statement type, `PT` the abstract parsed-template type.
`componentFactoryStmt compFactoryVar compMeta hostViewFactoryVar` stands for
the output-AST statement the source builds for the component-factory
constant declaration (built from collaborator code of the output AST
module). -/
structure OfflineCompiler (Stmt PT : Type) where
  styleCompileComponent : CompileDirectiveMetadata → StylesCompileResult Stmt
  styleCompileStylesheet : String → String → Bool → StylesCompileResult Stmt
  templateParse : CompileDirectiveMetadata → String → List CompileDirectiveMetadata →
    List CompilePipeMetadata → String → PT
  viewCompileComponent : CompileDirectiveMetadata → PT → String →
    List CompilePipeMetadata → ViewCompileResult Stmt
  emitStatements : String → List Stmt → List String → String
  xhrGet : String → Option String
  createHostComponentMeta : CompileIdentifierMetadata → String → CompileDirectiveMetadata
  componentFactoryStmt : String → CompileDirectiveMetadata → String → Stmt

/-- Split a character list at its last dot: `some (before, fromDot)` where
`fromDot` starts with the last dot, or `none` when no dot occurs. -/
def splitLastDot : List Char → Option (List Char × List Char)
  | [] => none
  | c :: rest =>
    match splitLastDot rest with
    | some (a, b) => some (c :: a, b)
    | none => if c = '.' then some ([], '.' :: rest) else none

/-- Source `_splitSuffix(path)`: `path.lastIndexOf` of the dot, then
`[path.substring(0, lastDot), path.substring(lastDot)]`, or `[path, empty]`
when there is no dot. -/
def _splitSuffix (path : String) : String × String :=
  match splitLastDot path.toList with
  | some (a, b) => (String.mk a, String.mk b)
  | none => (path, "")

/-- Source `_ngfactoryModuleUrl(comp)`: the base of the defining module URL,
then `.ngfactory`, then the original suffix. -/
def _ngfactoryModuleUrl (comp : CompileIdentifierMetadata) : String :=
  let urlWithSuffix := _splitSuffix comp.moduleUrl
  urlWithSuffix.1 ++ ".ngfactory" ++ urlWithSuffix.2

/-- Source `_componentFactoryName(comp)`: the type name followed by
`NgFactory`. -/
def _componentFactoryName (comp : CompileIdentifierMetadata) : String :=
  comp.name ++ "NgFactory"

/-- Source `_stylesModuleUrl(stylesheetUrl, shim, suffix)`:
`url.shim<suffix>` when shimmed, else `url<suffix>`. -/
def _stylesModuleUrl (stylesheetUrl : String) (shim : Bool) (suffix : String) : String :=
  if shim then stylesheetUrl ++ ".shim" ++ suffix else stylesheetUrl ++ suffix

/-- Message text of the metadata-contract exception thrown by
`_assertComponent` (the template literal of the source, with the quote
characters written as escapes). -/
def notComponentMsg (name : String) : String :=
  "Could not compile \x27" ++ name ++ "\x27 because it is not a component."

/-- Source `_assertComponent(meta)`: throws the metadata-contract exception
naming the type when the metadata is not flagged as a component. -/
def _assertComponent (meta : CompileDirectiveMetadata) : Except String Unit :=
  if !meta.isComponent then
    .error (notComponentMsg meta.type.name)
  else
    .ok ()

/-- The body of the `forEach` in `_resolveViewStatements`: a
`ViewFactoryDependency` gets its placeholder module URL set to the factory
module URL of `dep.comp.type`; a `ComponentFactoryDependency` gets its
placeholder name set to the component-factory name and its placeholder
module URL to the factory module URL of `dep.comp`; anything else is
untouched. -/
def resolveViewDependency : ViewStmtDependency → ViewStmtDependency
  | .viewFactory comp ph =>
      .viewFactory comp { ph with moduleUrl := _ngfactoryModuleUrl comp.type }
  | .componentFactory comp ph =>
      .componentFactory comp
        { ph with name := _componentFactoryName comp, moduleUrl := _ngfactoryModuleUrl comp }
  | .other tag ph => .other tag ph

/-- Source `_resolveViewStatements(compileResult)`: resolves every dependency
placeholder in place and returns `compileResult.statements`. The embedding
returns the compile result with resolved dependencies; its `statements`
field is the list the source function returns. -/
def _resolveViewStatements {Stmt : Type} (compileResult : ViewCompileResult Stmt) :
    ViewCompileResult Stmt :=
  { compileResult with dependencies := compileResult.dependencies.map resolveViewDependency }

/-- The body of the `forEach` in `_resolveStyleStatements` and in
`loadAndCompileStylesheet`: the placeholder module URL becomes
`_stylesModuleUrl(dep.moduleUrl, dep.isShimmed, suffix)` for the given
suffix. -/
def resolveStylesheetDep (suffix : String) (dep : StylesCompileDependency) :
    StylesCompileDependency :=
  { dep with valuePlaceholder :=
      { dep.valuePlaceholder with
          moduleUrl := _stylesModuleUrl dep.moduleUrl dep.isShimmed suffix } }

/-- Source `_resolveStyleStatements(containingModuleUrl, compileResult)`:
takes the suffix of the containing module URL (second component of
`_splitSuffix`), resolves every dependency placeholder with it, and returns
`compileResult.statements`. -/
def _resolveStyleStatements {Stmt : Type} (containingModuleUrl : String)
    (compileResult : StylesCompileResult Stmt) : StylesCompileResult Stmt :=
  let containingSuffix := (_splitSuffix containingModuleUrl).2
  { compileResult with
      dependencies := compileResult.dependencies.map (resolveStylesheetDep containingSuffix) }

/-- Source private `_compileComponent(compMeta, directives, pipes,
targetStatements)`: style compile, template parse, view compile, then append
the resolved style statements and resolved view statements to the
accumulator; returns the accumulator (mutated in place in the source) paired
with `viewResult.viewFactoryVar`. -/
def _compileComponent {Stmt PT : Type} (oc : OfflineCompiler Stmt PT)
    (compMeta : CompileDirectiveMetadata) (directives : List CompileDirectiveMetadata)
    (pipes : List CompilePipeMetadata) (targetStatements : List Stmt) :
    List Stmt × String :=
  let styleResult := oc.styleCompileComponent compMeta
  let parsedTemplate :=
    oc.templateParse compMeta compMeta.template.template directives pipes compMeta.type.name
  let viewResult := oc.viewCompileComponent compMeta parsedTemplate styleResult.stylesVar pipes
  let targetStatements :=
    targetStatements ++ (_resolveStyleStatements compMeta.type.moduleUrl styleResult).statements
  let targetStatements := targetStatements ++ (_resolveViewStatements viewResult).statements
  (targetStatements, viewResult.viewFactoryVar)

/-- Source private `_codegenSourceModule(moduleUrl, statements,
exportedVars)`: builds the `SourceModule` from the emitter output. -/
def _codegenSourceModule {Stmt PT : Type} (oc : OfflineCompiler Stmt PT)
    (moduleUrl : String) (statements : List Stmt) (exportedVars : List String) : SourceModule :=
  ⟨moduleUrl, oc.emitStatements moduleUrl statements exportedVars⟩

/-- Source private `_codgenStyles(inputUrl, shim, suffix,
stylesCompileResult)`: emits the styles module at
`_stylesModuleUrl(inputUrl, shim, suffix)` exporting exactly the styles
variable. -/
def _codgenStyles {Stmt PT : Type} (oc : OfflineCompiler Stmt PT) (inputUrl : String)
    (shim : Bool) (suffix : String) (stylesCompileResult : StylesCompileResult Stmt) :
    SourceModule :=
  _codegenSourceModule oc (_stylesModuleUrl inputUrl shim suffix)
    stylesCompileResult.statements [stylesCompileResult.stylesVar]

/-- The `components.forEach` body of `compileTemplates`, threading the
`statements` and `exportedVars` accumulators: assert the component flag,
compile the component view (pushing its view-factory name), synthesize and
compile the host view, push the component-factory declaration statement and
its name. A thrown assertion aborts the whole traversal. -/
def compileTemplatesLoop {Stmt PT : Type} (oc : OfflineCompiler Stmt PT) :
    List NormalizedComponentWithViewDirectives → List Stmt → List String →
    Except String (List Stmt × List String)
  | [], statements, exportedVars => .ok (statements, exportedVars)
  | componentWithDirs :: rest, statements, exportedVars =>
    let compMeta := componentWithDirs.component
    match _assertComponent compMeta with
    | .error e => .error e
    | .ok _ =>
      let compiled :=
        _compileComponent oc compMeta componentWithDirs.directives componentWithDirs.pipes
          statements
      let statements := compiled.1
      let compViewFactoryVar := compiled.2
      let exportedVars := exportedVars ++ [compViewFactoryVar]
      let hostMeta := oc.createHostComponentMeta compMeta.type compMeta.selector
      let compiledHost := _compileComponent oc hostMeta [compMeta] [] statements
      let statements := compiledHost.1
      let hostViewFactoryVar := compiledHost.2
      let compFactoryVar := _componentFactoryName compMeta.type
      let statements :=
        statements ++ [oc.componentFactoryStmt compFactoryVar compMeta hostViewFactoryVar]
      let exportedVars := exportedVars ++ [compFactoryVar]
      compileTemplatesLoop oc rest statements exportedVars

/-- Source `compileTemplates(components)`: throws `No components given` on an
empty list, otherwise derives the output module URL from the defining module
URL of the first component, runs the per-component loop, and emits one
source module from the accumulated statements and exported names. -/
def compileTemplates {Stmt PT : Type} (oc : OfflineCompiler Stmt PT)
    (components : List NormalizedComponentWithViewDirectives) : Except String SourceModule :=
  match components with
  | [] => .error "No components given"
  | first :: _ =>
    let moduleUrl := _ngfactoryModuleUrl first.component.type
    match compileTemplatesLoop oc components [] [] with
    | .error e => .error e
    | .ok (statements, exportedVars) =>
        .ok (_codegenSourceModule oc moduleUrl statements exportedVars)

/-- Source `loadAndCompileStylesheet(stylesheetUrl, shim, suffix)`: fetch the
stylesheet text (the one suspension point; `none` models a rejected fetch),
run the style compiler, record the raw module URL of each dependency in
`importedUrls`, resolve each dependency placeholder with
`_stylesModuleUrl(dep.moduleUrl, dep.isShimmed, suffix)`, and return the
emitted styles module together with the raw imported URLs. -/
def loadAndCompileStylesheet {Stmt PT : Type} (oc : OfflineCompiler Stmt PT)
    (stylesheetUrl : String) (shim : Bool) (suffix : String) :
    Option StyleSheetSourceWithImports :=
  match oc.xhrGet stylesheetUrl with
  | none => none
  | some cssText =>
    let compileResult := oc.styleCompileStylesheet stylesheetUrl cssText shim
    let importedUrls := compileResult.dependencies.map (fun dep => dep.moduleUrl)
    let compileResult :=
      { compileResult with
          dependencies := compileResult.dependencies.map (resolveStylesheetDep suffix) }
    some ⟨_codgenStyles oc stylesheetUrl shim suffix compileResult, importedUrls⟩

/-- The view-compiler result `_compileComponent` obtains for one component:
style compile, template parse, then view compile, exactly as in the source. -/
def viewResultOf {Stmt PT : Type} (oc : OfflineCompiler Stmt PT)
    (compMeta : CompileDirectiveMetadata) (directives : List CompileDirectiveMetadata)
    (pipes : List CompilePipeMetadata) : ViewCompileResult Stmt :=
  oc.viewCompileComponent compMeta
    (oc.templateParse compMeta compMeta.template.template directives pipes compMeta.type.name)
    (oc.styleCompileComponent compMeta).stylesVar pipes

/-- The two symbol names the `compileTemplates` loop exports for one input
tuple: the view-factory name of the component and its component-factory
name. -/
def componentExportedVars {Stmt PT : Type} (oc : OfflineCompiler Stmt PT)
    (cwd : NormalizedComponentWithViewDirectives) : List String :=
  [(viewResultOf oc cwd.component cwd.directives cwd.pipes).viewFactoryVar,
   _componentFactoryName cwd.component.type]

/-- A component-flagged metadata fixture. -/
def goodComp : CompileDirectiveMetadata := ⟨⟨"Comp", "lib/comp.ts"⟩, "comp-sel", true, ⟨"tpl"⟩⟩

/-- A metadata fixture not flagged as a component. -/
def badComp : CompileDirectiveMetadata := ⟨⟨"Bad", "lib/bad.ts"⟩, "bad-sel", false, ⟨""⟩⟩

/-- Concrete compiler instance over string statements whose emitter reveals
its inputs (module URL, statements, exported symbols) in the output text,
used to instantiate the general theorems. -/
def demoOC : OfflineCompiler String Unit where
  styleCompileComponent := fun m => ⟨["styles:" ++ m.type.name], [], "styles_" ++ m.type.name⟩
  styleCompileStylesheet := fun _ css _ =>
    ⟨["css:" ++ css],
     [⟨"imp1.css", true, ⟨"ph1", "orig1"⟩⟩, ⟨"imp2.css", false, ⟨"ph2", "orig2"⟩⟩],
     "styles"⟩
  templateParse := fun _ _ _ _ _ => ()
  viewCompileComponent := fun m _ sv _ =>
    ⟨["view:" ++ m.type.name ++ ":" ++ sv], [], "viewFactory_" ++ m.type.name⟩
  emitStatements := fun url stmts vars =>
    url ++ "|" ++ String.intercalate ";" stmts ++ "|" ++ String.intercalate ";" vars
  xhrGet := fun url => some ("body of " ++ url)
  createHostComponentMeta := fun t sel => ⟨⟨t.name ++ "_Host", t.moduleUrl⟩, sel, true, ⟨""⟩⟩
  componentFactoryStmt := fun v m hv => v ++ "=" ++ m.selector ++ "," ++ hv ++ "," ++ m.type.name

/-- Observer compiler whose emitter reports only the number of exported
symbols it was handed, making the length of the exported-symbol list visible
in the source text of the output module. -/
def countOC : OfflineCompiler Unit Unit where
  styleCompileComponent := fun _ => ⟨[], [], "styles"⟩
  styleCompileStylesheet := fun _ _ _ => ⟨[], [], "styles"⟩
  templateParse := fun _ _ _ _ _ => ()
  viewCompileComponent := fun m _ _ _ => ⟨[], [], "viewFactory_" ++ m.type.name⟩
  emitStatements := fun _ _ exportedVars => toString exportedVars.length
  xhrGet := fun _ => some ""
  createHostComponentMeta := fun t sel => ⟨⟨t.name ++ "_Host", t.moduleUrl⟩, sel, true, ⟨""⟩⟩
  componentFactoryStmt := fun _ _ _ => ()

lemma splitLastDot_eq_none {cs : List Char} (h : splitLastDot cs = none) : '.' ∉ cs := by
  induction cs with
  | nil => simp
  | cons c rest ih =>
    unfold splitLastDot at h
    cases hr : splitLastDot rest with
    | some ab => rw [hr] at h; simp at h
    | none =>
      rw [hr] at h
      by_cases hc : c = '.'
      · simp [hc] at h
      · intro hmem
        rcases List.mem_cons.mp hmem with hcc | hmem2
        · exact hc hcc.symm
        · exact ih hr hmem2

lemma splitLastDot_eq_some : ∀ {cs a b : List Char}, splitLastDot cs = some (a, b) →
    cs = a ++ b ∧ ∃ t, b = '.' :: t ∧ '.' ∉ t := by
  intro cs
  induction cs with
  | nil => intro a b h; simp [splitLastDot] at h
  | cons c rest ih =>
    intro a b h
    unfold splitLastDot at h
    cases hr : splitLastDot rest with
    | some ab =>
      rw [hr] at h
      obtain ⟨a2, b2⟩ := ab
      simp at h
      obtain ⟨ha, hb⟩ := h
      obtain ⟨heq, t, hbt, ht⟩ := ih hr
      subst ha; subst hb
      exact ⟨by simp [heq], t, hbt, ht⟩
    | none =>
      rw [hr] at h
      by_cases hc : c = '.'
      · simp [hc] at h
        obtain ⟨ha, hb⟩ := h
        subst ha; subst hb
        exact ⟨by simp [hc], rest, rfl, splitLastDot_eq_none hr⟩
      · simp [hc] at h

lemma dot_not_mem_splitLastDot {cs : List Char} (h : '.' ∉ cs) : splitLastDot cs = none := by
  induction cs with
  | nil => rfl
  | cons c rest ih =>
    simp at h
    unfold splitLastDot
    rw [ih h.2]
    simp [Ne.symm h.1]

lemma _splitSuffix_append (p : String) : (_splitSuffix p).1 ++ (_splitSuffix p).2 = p := by
  unfold _splitSuffix
  cases h : splitLastDot p.toList with
  | none => simp
  | some ab =>
    obtain ⟨a, b⟩ := ab
    obtain ⟨heq, -⟩ := splitLastDot_eq_some h
    show String.mk a ++ String.mk b = p
    calc String.mk a ++ String.mk b = String.mk (a ++ b) := rfl
      _ = String.mk p.toList := by rw [← heq]
      _ = p := rfl

lemma _splitSuffix_of_not_dot {p : String} (h : '.' ∉ p.toList) : _splitSuffix p = (p, "") := by
  unfold _splitSuffix
  rw [dot_not_mem_splitLastDot h]

lemma _compileComponent_snd {Stmt PT : Type} (oc : OfflineCompiler Stmt PT)
    (m : CompileDirectiveMetadata) (d : List CompileDirectiveMetadata)
    (p : List CompilePipeMetadata) (ts : List Stmt) :
    (_compileComponent oc m d p ts).2 = (viewResultOf oc m d p).viewFactoryVar := rfl

lemma _assertComponent_ok {m : CompileDirectiveMetadata} (h : m.isComponent = true) :
    _assertComponent m = .ok () := by
  simp [_assertComponent, h]

lemma _assertComponent_error {m : CompileDirectiveMetadata} (h : m.isComponent = false) :
    _assertComponent m = .error (notComponentMsg m.type.name) := by
  simp [_assertComponent, h]

lemma compileTemplatesLoop_ok {Stmt PT : Type} (oc : OfflineCompiler Stmt PT) :
    ∀ (comps : List NormalizedComponentWithViewDirectives),
      (∀ c ∈ comps, c.component.isComponent = true) →
      ∀ (s : List Stmt) (v : List String),
        ∃ s2, compileTemplatesLoop oc comps s v
          = .ok (s2, v ++ comps.flatMap (componentExportedVars oc)) := by
  intro comps
  induction comps with
  | nil => intro _ s v; exact ⟨s, by simp [compileTemplatesLoop]⟩
  | cons cwd rest ih =>
    intro h s v
    have hc : cwd.component.isComponent = true := h cwd (List.mem_cons_self _ _)
    have hrest : ∀ c ∈ rest, c.component.isComponent = true :=
      fun c hm => h c (List.mem_cons_of_mem _ hm)
    obtain ⟨s2, heq⟩ := ih hrest
      ((_compileComponent oc
          (oc.createHostComponentMeta cwd.component.type cwd.component.selector)
          [cwd.component] []
          (_compileComponent oc cwd.component cwd.directives cwd.pipes s).1).1
        ++ [oc.componentFactoryStmt (_componentFactoryName cwd.component.type) cwd.component
              (_compileComponent oc
                (oc.createHostComponentMeta cwd.component.type cwd.component.selector)
                [cwd.component] []
                (_compileComponent oc cwd.component cwd.directives cwd.pipes s).1).2])
      (v ++ [(_compileComponent oc cwd.component cwd.directives cwd.pipes s).2]
        ++ [_componentFactoryName cwd.component.type])
    refine ⟨s2, ?_⟩
    simp only [compileTemplatesLoop]
    rw [_assertComponent_ok hc]
    exact heq.trans (by simp [componentExportedVars, _compileComponent_snd])

lemma compileTemplatesLoop_error {Stmt PT : Type} (oc : OfflineCompiler Stmt PT) :
    ∀ (comps : List NormalizedComponentWithViewDirectives),
      (∃ c ∈ comps, c.component.isComponent = false) →
      ∀ (s : List Stmt) (v : List String),
        ∃ c ∈ comps, c.component.isComponent = false ∧
          compileTemplatesLoop oc comps s v = .error (notComponentMsg c.component.type.name) := by
  intro comps
  induction comps with
  | nil => intro h; simp at h
  | cons cwd rest ih =>
    intro h s v
    by_cases hc : cwd.component.isComponent = false
    · refine ⟨cwd, List.mem_cons_self _ _, hc, ?_⟩
      simp only [compileTemplatesLoop]
      rw [_assertComponent_error hc]
    · have hc2 : cwd.component.isComponent = true := by
        cases hb : cwd.component.isComponent
        · exact absurd hb hc
        · rfl
      have hrest : ∃ c ∈ rest, c.component.isComponent = false := by
        obtain ⟨c, hm, hf⟩ := h
        rcases List.mem_cons.mp hm with hcc | hm2
        · rw [hcc] at hf; rw [hf] at hc2; cases hc2
        · exact ⟨c, hm2, hf⟩
      obtain ⟨c, hm, hf, heq⟩ := ih hrest
        ((_compileComponent oc
            (oc.createHostComponentMeta cwd.component.type cwd.component.selector)
            [cwd.component] []
            (_compileComponent oc cwd.component cwd.directives cwd.pipes s).1).1
          ++ [oc.componentFactoryStmt (_componentFactoryName cwd.component.type) cwd.component
                (_compileComponent oc
                  (oc.createHostComponentMeta cwd.component.type cwd.component.selector)
                  [cwd.component] []
                  (_compileComponent oc cwd.component cwd.directives cwd.pipes s).1).2])
        (v ++ [(_compileComponent oc cwd.component cwd.directives cwd.pipes s).2]
          ++ [_componentFactoryName cwd.component.type])
      refine ⟨c, List.mem_cons_of_mem _ hm, hf, ?_⟩
      simp only [compileTemplatesLoop]
      rw [_assertComponent_ok hc2]
      exact heq

/-- C1, counterexample: for a single-component input (N = 1) the emitter is
handed an exported-symbol list of length 2, not 3 x N = 3: the loop exports
only the view-factory name of the component and its component-factory name;
the host view-factory name is never pushed onto `exportedVars`. -/
theorem claim1_counterexample :
    compileTemplates countOC [⟨goodComp, [], []⟩]
      = .ok ⟨"lib/comp.ngfactory.ts", "2"⟩
    ∧ ("2" : String) ≠ "3" :=
  ⟨rfl, by decide⟩

/-- C1, amended: for every non-empty input list of N component tuples (all
flagged as components), the exported-symbol list passed to the output
emitter has exactly 2 x N entries — per component, its view-factory name and
its component-factory name (the host view-factory name is not exported) —
and each component-factory name equals the type name of the component
followed by `NgFactory`. -/
theorem claim1_exported_symbols_amended {Stmt PT : Type} (oc : OfflineCompiler Stmt PT)
    (first : NormalizedComponentWithViewDirectives)
    (rest : List NormalizedComponentWithViewDirectives)
    (h : ∀ c ∈ first :: rest, c.component.isComponent = true) :
    (∃ statements, compileTemplates oc (first :: rest)
        = .ok ⟨_ngfactoryModuleUrl first.component.type,
               oc.emitStatements (_ngfactoryModuleUrl first.component.type) statements
                 ((first :: rest).flatMap (componentExportedVars oc))⟩)
    ∧ ((first :: rest).flatMap (componentExportedVars oc)).length = 2 * (first :: rest).length
    ∧ ∀ cwd ∈ first :: rest, componentExportedVars oc cwd
        = [(viewResultOf oc cwd.component cwd.directives cwd.pipes).viewFactoryVar,
           cwd.component.type.name ++ "NgFactory"] := by
  refine ⟨?_, ?_, fun cwd _ => rfl⟩
  · obtain ⟨s2, heq⟩ := compileTemplatesLoop_ok oc (first :: rest) h [] []
    refine ⟨s2, ?_⟩
    simp only [compileTemplates]
    rw [heq]
    rfl
  · have hlen : ∀ cwd, (componentExportedVars oc cwd).length = 2 := fun _ => rfl
    induction rest with
    | nil => simp [componentExportedVars]
    | cons x xs ih => simp_all [componentExportedVars]; omega

/-- C1, amended, witness at a concrete single-component input. -/
theorem claim1_exported_symbols_witness :
    (∀ c ∈ [(⟨goodComp, [], []⟩ : NormalizedComponentWithViewDirectives)],
        c.component.isComponent = true)
    ∧ ((∃ statements, compileTemplates demoOC [⟨goodComp, [], []⟩]
          = .ok ⟨"lib/comp.ngfactory.ts",
                 demoOC.emitStatements "lib/comp.ngfactory.ts" statements
                   ["viewFactory_Comp", "CompNgFactory"]⟩)
        ∧ (["viewFactory_Comp", "CompNgFactory"] : List String).length = 2 * 1
        ∧ ∀ cwd ∈ [(⟨goodComp, [], []⟩ : NormalizedComponentWithViewDirectives)],
            componentExportedVars demoOC cwd
              = [(viewResultOf demoOC cwd.component cwd.directives cwd.pipes).viewFactoryVar,
                 cwd.component.type.name ++ "NgFactory"]) :=
  ⟨by decide, claim1_exported_symbols_amended demoOC ⟨goodComp, [], []⟩ [] (by decide)⟩

/-- C2: for every input list containing at least one tuple whose component
metadata is not flagged as a component, `compileTemplates` fails with a
compilation error whose message names the offending type, and returns no
`SourceModule` at all — the whole batch aborts with `Except.error`, so no
partial module for earlier valid entries is returned. -/
theorem claim2_not_component_aborts {Stmt PT : Type} (oc : OfflineCompiler Stmt PT)
    (comps : List NormalizedComponentWithViewDirectives)
    (h : ∃ c ∈ comps, c.component.isComponent = false) :
    ∃ c ∈ comps, c.component.isComponent = false ∧
      compileTemplates oc comps = .error (notComponentMsg c.component.type.name) := by
  obtain ⟨c, hm, hf, heq⟩ := compileTemplatesLoop_error oc comps h [] []
  refine ⟨c, hm, hf, ?_⟩
  cases comps with
  | nil => exact absurd hm (List.not_mem_nil _)
  | cons first rest =>
    simp only [compileTemplates]
    rw [heq]

/-- C2, witness: a mixed batch with one valid entry followed by one invalid
entry yields the metadata-contract error naming the invalid type, and zero
output. -/
theorem claim2_not_component_witness :
    (∃ c ∈ [(⟨goodComp, [], []⟩ : NormalizedComponentWithViewDirectives), ⟨badComp, [], []⟩],
        c.component.isComponent = false ∧
        compileTemplates demoOC [⟨goodComp, [], []⟩, ⟨badComp, [], []⟩]
          = .error (notComponentMsg c.component.type.name))
    ∧ compileTemplates demoOC [⟨goodComp, [], []⟩, ⟨badComp, [], []⟩]
        = .error "Could not compile \x27Bad\x27 because it is not a component." :=
  ⟨claim2_not_component_aborts demoOC [⟨goodComp, [], []⟩, ⟨badComp, [], []⟩] (by decide), rfl⟩

/-- C3: for every non-empty input list whose entries are flagged as
components, `compileTemplates` returns exactly one `SourceModule`, and its
module URL equals the factory-module-URL transform of the defining module
URL of the first component. -/
theorem claim3_single_module_first_url {Stmt PT : Type} (oc : OfflineCompiler Stmt PT)
    (first : NormalizedComponentWithViewDirectives)
    (rest : List NormalizedComponentWithViewDirectives)
    (h : ∀ c ∈ first :: rest, c.component.isComponent = true) :
    ∃ statements exportedVars, compileTemplates oc (first :: rest)
        = .ok ⟨_ngfactoryModuleUrl first.component.type,
               oc.emitStatements (_ngfactoryModuleUrl first.component.type) statements
                 exportedVars⟩ := by
  obtain ⟨s2, heq⟩ := compileTemplatesLoop_ok oc (first :: rest) h [] []
  refine ⟨s2, (first :: rest).flatMap (componentExportedVars oc), ?_⟩
  simp only [compileTemplates]
  rw [heq]
  rfl

/-- C3, witness at a concrete single-component input. -/
theorem claim3_single_module_witness :
    (∀ c ∈ [(⟨goodComp, [], []⟩ : NormalizedComponentWithViewDirectives)],
        c.component.isComponent = true)
    ∧ ∃ statements exportedVars, compileTemplates demoOC [⟨goodComp, [], []⟩]
        = .ok ⟨"lib/comp.ngfactory.ts",
               demoOC.emitStatements "lib/comp.ngfactory.ts" statements exportedVars⟩ :=
  ⟨by decide, claim3_single_module_first_url demoOC ⟨goodComp, [], []⟩ [] (by decide)⟩

/-- C4: `_compileComponent` appends the style statements resolved by
`_resolveStyleStatements` with the defining module URL of the containing
component; that resolution sets the placeholder module URL of every nested
stylesheet dependency with the styles-module-URL rule applied to the suffix
of the containing module URL (the substring from its last dot), regardless
of any suffix embedded in the stylesheet URL of the dependency itself — as
in the example of the spec, a containing module `a.foo` importing `b.css`
resolves to a `.foo`-suffixed URL, not a `.css`-derived one. -/
theorem claim4_style_resolution_containing_suffix {Stmt PT : Type}
    (oc : OfflineCompiler Stmt PT) (compMeta : CompileDirectiveMetadata)
    (directives : List CompileDirectiveMetadata) (pipes : List CompilePipeMetadata)
    (ts : List Stmt) (cu : String) (r : StylesCompileResult Stmt)
    (suffix : String) (dep : StylesCompileDependency) :
    (_compileComponent oc compMeta directives pipes ts).1
        = ts ++ (_resolveStyleStatements compMeta.type.moduleUrl
                  (oc.styleCompileComponent compMeta)).statements
            ++ (_resolveViewStatements (viewResultOf oc compMeta directives pipes)).statements
    ∧ (∀ i : Nat, ((_resolveStyleStatements cu r).dependencies)[i]?
        = (r.dependencies[i]?).map (resolveStylesheetDep (_splitSuffix cu).2))
    ∧ (resolveStylesheetDep suffix dep).valuePlaceholder.moduleUrl
        = _stylesModuleUrl dep.moduleUrl dep.isShimmed suffix
    ∧ (resolveStylesheetDep (_splitSuffix "a.foo").2
          ⟨"b.css", false, ⟨"ph", "orig"⟩⟩).valuePlaceholder.moduleUrl = "b.css.foo"
    ∧ (resolveStylesheetDep (_splitSuffix "a.foo").2
          ⟨"b.css", true, ⟨"ph", "orig"⟩⟩).valuePlaceholder.moduleUrl = "b.css.shim.foo" := by
  refine ⟨rfl, ?_, rfl, rfl, rfl⟩
  intro i
  simp [_resolveStyleStatements, List.getElem?_map]

/-- C5: view-statement dependency resolution maps every dependency in place:
a view-factory dependency has its placeholder module URL set to the factory
module URL of the type of the referenced component; a component-factory
dependency has its placeholder set to the component-factory symbol name and
the factory module URL; a dependency of any other kind is left entirely
unchanged; the statement list is returned as-is. -/
theorem claim5_view_resolution_kinds {Stmt : Type} (r : ViewCompileResult Stmt)
    (comp : CompileDirectiveMetadata) (cid ph : CompileIdentifierMetadata) (tag : String) :
    (_resolveViewStatements r).statements = r.statements
    ∧ (∀ i : Nat, ((_resolveViewStatements r).dependencies)[i]?
        = (r.dependencies[i]?).map resolveViewDependency)
    ∧ resolveViewDependency (.viewFactory comp ph)
        = .viewFactory comp ⟨ph.name, _ngfactoryModuleUrl comp.type⟩
    ∧ resolveViewDependency (.componentFactory cid ph)
        = .componentFactory cid ⟨_componentFactoryName cid, _ngfactoryModuleUrl cid⟩
    ∧ resolveViewDependency (.other tag ph) = .other tag ph := by
  refine ⟨rfl, ?_, rfl, rfl, rfl⟩
  intro i
  simp [_resolveViewStatements, List.getElem?_map]

/-- C6: `compileTemplates` applied to the empty component list fails with the
configuration error and produces no `SourceModule`; the result is `.error`
for every compiler instance, so no emitter call or per-component work
contributes to it. -/
theorem claim6_empty_list_error {Stmt PT : Type} (oc : OfflineCompiler Stmt PT) :
    compileTemplates oc [] = .error "No components given" := rfl

/-- C7: the factory-module-URL function returns the base of the module URL
(before the last dot) followed by `.ngfactory` followed by the original
suffix (from the last dot); the base and suffix recompose to the original
URL; when the URL has a dot the suffix starts at the last dot; when the URL
has no dot the suffix is empty and the result is the URL followed by
`.ngfactory`; in particular `a/b.ts` maps to `a/b.ngfactory.ts` and `a/b`
maps to `a/b.ngfactory`. -/
theorem claim7_ngfactory_url (comp : CompileIdentifierMetadata) :
    _ngfactoryModuleUrl comp
        = (_splitSuffix comp.moduleUrl).1 ++ ".ngfactory" ++ (_splitSuffix comp.moduleUrl).2
    ∧ (_splitSuffix comp.moduleUrl).1 ++ (_splitSuffix comp.moduleUrl).2 = comp.moduleUrl
    ∧ ('.' ∉ comp.moduleUrl.toList →
        _ngfactoryModuleUrl comp = comp.moduleUrl ++ ".ngfactory")
    ∧ ('.' ∈ comp.moduleUrl.toList →
        ∃ t, (_splitSuffix comp.moduleUrl).2.toList = '.' :: t ∧ '.' ∉ t)
    ∧ _ngfactoryModuleUrl ⟨"B", "a/b.ts"⟩ = "a/b.ngfactory.ts"
    ∧ _ngfactoryModuleUrl ⟨"B", "a/b"⟩ = "a/b.ngfactory" := by
  refine ⟨rfl, _splitSuffix_append comp.moduleUrl, ?_, ?_, rfl, rfl⟩
  · intro hdot
    unfold _ngfactoryModuleUrl
    rw [_splitSuffix_of_not_dot hdot]
    simp
  · intro hdot
    cases hsp : splitLastDot comp.moduleUrl.toList with
    | none => exact absurd hdot (splitLastDot_eq_none hsp)
    | some ab =>
      obtain ⟨a, b⟩ := ab
      obtain ⟨-, t, hbt, ht⟩ := splitLastDot_eq_some hsp
      refine ⟨t, ?_, ht⟩
      unfold _splitSuffix
      rw [hsp, hbt]
      rfl

/-- C7, witness: the no-dot and with-dot branches at concrete URLs. -/
theorem claim7_ngfactory_url_witness :
    ('.' ∉ ("a/b" : String).toList
      ∧ _ngfactoryModuleUrl ⟨"B", "a/b"⟩ = ("a/b" : String) ++ ".ngfactory")
    ∧ ('.' ∈ ("a/b.ts" : String).toList
      ∧ ∃ t, (_splitSuffix "a/b.ts").2.toList = '.' :: t ∧ '.' ∉ t) :=
  ⟨⟨by decide, (claim7_ngfactory_url ⟨"B", "a/b"⟩).2.2.1 (by decide)⟩,
   ⟨by decide, (claim7_ngfactory_url ⟨"B", "a/b.ts"⟩).2.2.2.1 (by decide)⟩⟩

/-- C8: once the fetch resolves, `loadAndCompileStylesheet` resolves the
placeholder module URL of every nested stylesheet dependency with the
styles-module-URL rule — the dependency URL plus `.shim` plus the suffix
when the dependency is shimmed, the dependency URL plus the suffix when not
— propagating the shim flag of the dependency and using the caller-given
suffix string, and returns the module built from the so-resolved compile
result. -/
theorem claim8_stylesheet_dep_resolution {Stmt PT : Type} (oc : OfflineCompiler Stmt PT)
    (url : String) (shim : Bool) (suffix : String) (cssText : String)
    (h : oc.xhrGet url = some cssText) :
    (∀ dep : StylesCompileDependency,
      (resolveStylesheetDep suffix dep).valuePlaceholder.moduleUrl
        = if dep.isShimmed then dep.moduleUrl ++ ".shim" ++ suffix
          else dep.moduleUrl ++ suffix)
    ∧ loadAndCompileStylesheet oc url shim suffix
        = some ⟨_codgenStyles oc url shim suffix
                  { oc.styleCompileStylesheet url cssText shim with
                      dependencies :=
                        (oc.styleCompileStylesheet url cssText shim).dependencies.map
                          (resolveStylesheetDep suffix) },
                (oc.styleCompileStylesheet url cssText shim).dependencies.map
                  (fun dep => dep.moduleUrl)⟩ := by
  constructor
  · intro dep
    rfl
  · simp only [loadAndCompileStylesheet]
    rw [h]

/-- C8, witness at a concrete fetch: the shimmed dependency resolves to
`imp1.css.shim.ts`, the unshimmed one to `imp2.css.ts`. -/
theorem claim8_stylesheet_dep_witness :
    demoOC.xhrGet "sheet.css" = some "body of sheet.css"
    ∧ (resolveStylesheetDep ".ts" ⟨"imp1.css", true, ⟨"ph1", "orig1"⟩⟩).valuePlaceholder.moduleUrl
        = "imp1.css.shim.ts"
    ∧ (resolveStylesheetDep ".ts" ⟨"imp2.css", false, ⟨"ph2", "orig2"⟩⟩).valuePlaceholder.moduleUrl
        = "imp2.css.ts"
    ∧ loadAndCompileStylesheet demoOC "sheet.css" false ".ts"
        = some ⟨⟨"sheet.css.ts", "sheet.css.ts|css:body of sheet.css|styles"⟩,
                ["imp1.css", "imp2.css"]⟩ :=
  ⟨rfl,
   (claim8_stylesheet_dep_resolution demoOC "sheet.css" false ".ts" "body of sheet.css" rfl).1
     ⟨"imp1.css", true, ⟨"ph1", "orig1"⟩⟩,
   (claim8_stylesheet_dep_resolution demoOC "sheet.css" false ".ts" "body of sheet.css" rfl).1
     ⟨"imp2.css", false, ⟨"ph2", "orig2"⟩⟩,
   (claim8_stylesheet_dep_resolution demoOC "sheet.css" false ".ts" "body of sheet.css" rfl).2⟩

/-- C9: the `importedUrls` list returned by `loadAndCompileStylesheet` equals
the original pre-resolution module URLs of the dependencies exactly as
produced by the style compiler, in the same order; placeholder resolution
does not alter the own `moduleUrl` field of a dependency. -/
theorem claim9_imported_urls_raw {Stmt PT : Type} (oc : OfflineCompiler Stmt PT)
    (url : String) (shim : Bool) (suffix : String) (cssText : String)
    (h : oc.xhrGet url = some cssText) :
    (∀ (sfx : String) (dep : StylesCompileDependency),
      (resolveStylesheetDep sfx dep).moduleUrl = dep.moduleUrl)
    ∧ ∃ m, loadAndCompileStylesheet oc url shim suffix = some m
        ∧ m.importedUrls
            = (oc.styleCompileStylesheet url cssText shim).dependencies.map
                (fun dep => dep.moduleUrl) := by
  refine ⟨fun _ _ => rfl, ?_⟩
  simp only [loadAndCompileStylesheet]
  rw [h]
  exact ⟨_, rfl, rfl⟩

/-- C9, witness at a concrete fetch: the returned imported URLs are the raw
dependency URLs in order. -/
theorem claim9_imported_urls_witness :
    demoOC.xhrGet "sheet.css" = some "body of sheet.css"
    ∧ (∀ (sfx : String) (dep : StylesCompileDependency),
        (resolveStylesheetDep sfx dep).moduleUrl = dep.moduleUrl)
    ∧ ∃ m, loadAndCompileStylesheet demoOC "sheet.css" false ".ts" = some m
        ∧ m.importedUrls = ["imp1.css", "imp2.css"] :=
  ⟨rfl, claim9_imported_urls_raw demoOC "sheet.css" false ".ts" "body of sheet.css" rfl⟩

/-- C10: the `SourceModule` returned by `loadAndCompileStylesheet` has module
URL equal to the styles-module-URL rule applied to the stylesheet URL, shim
flag and suffix of the call, and its source is the emitter output for an
exported-symbol list containing exactly one name: the styles variable of the
style compiler. -/
theorem claim10_styles_module_output {Stmt PT : Type} (oc : OfflineCompiler Stmt PT)
    (url : String) (shim : Bool) (suffix : String) (cssText : String)
    (h : oc.xhrGet url = some cssText) :
    ∃ m, loadAndCompileStylesheet oc url shim suffix = some m
      ∧ m.source.moduleUrl = _stylesModuleUrl url shim suffix
      ∧ m.source.source
          = oc.emitStatements (_stylesModuleUrl url shim suffix)
              (oc.styleCompileStylesheet url cssText shim).statements
              [(oc.styleCompileStylesheet url cssText shim).stylesVar] := by
  simp only [loadAndCompileStylesheet]
  rw [h]
  exact ⟨_, rfl, rfl, rfl⟩

/-- C10, witness at a concrete shimmed fetch: the module URL gains the
`.shim` infix and the exported-symbol list is exactly the styles variable. -/
theorem claim10_styles_module_witness :
    demoOC.xhrGet "sheet.css" = some "body of sheet.css"
    ∧ ∃ m, loadAndCompileStylesheet demoOC "sheet.css" true ".ts" = some m
        ∧ m.source.moduleUrl = "sheet.css.shim.ts"
        ∧ m.source.source
            = demoOC.emitStatements "sheet.css.shim.ts" ["css:body of sheet.css"] ["styles"] :=
  ⟨rfl, claim10_styles_module_output demoOC "sheet.css" true ".ts" "body of sheet.css" rfl⟩

end Ngc
